import Mathlib

/-!
Verification of the natural-language specification of
uberwriter/pandoc_source_mapper.py against the code, over a shallow
embedding of the module in Lean.

Texts are lists of characters; Python string indexing, slicing, find,
rfind and startswith are modelled with CPython's index-adjustment
semantics, including negative-index wrap-around and `IndexError`
(an out-of-range single-character access), which is modelled by
`Option` (`none` = the Python code raises).
-/

set_option autoImplicit false

namespace PSM

/-! ### Python string primitives -/

/-- Python `str.isspace` on a single character (the Unicode whitespace set
CPython uses, restricted to the code points that exist). -/
def pyIsspace (c : Char) : Bool :=
  c ∈ [' ', '\t', '\n', '\x0b', '\x0c', '\r',
       '\x1c', '\x1d', '\x1e', '\x1f', '\x85', '\xa0',
       ' ', ' ', ' ', ' ', ' ', ' ',
       ' ', ' ', ' ', ' ', ' ', ' ',
       ' ', ' ', ' ', ' ', '　']

/-- Python single-character indexing `text[i]`: negative indices wrap
around once; out-of-range access raises IndexError (`none`). -/
def pyGet (text : List Char) (i : Int) : Option Char :=
  if 0 ≤ i then text[i.toNat]?
  else if -(text.length : Int) ≤ i then text[((text.length : Int) + i).toNat]?
  else none

/-- CPython index adjustment for a `start` bound of `str.find`/`rfind`/
`startswith`: negative indices wrap and clamp at 0; there is no upper clamp. -/
def pyAdjStart (n : Nat) (v : Int) : Int :=
  if v < 0 then max ((n : Int) + v) 0 else v

/-- CPython index adjustment for an `end` bound: negative indices wrap and
clamp at 0, and the bound is clamped above at the length. -/
def pyAdjEnd (n : Nat) (v : Int) : Int :=
  if v < 0 then max ((n : Int) + v) 0 else min v n

/-- Whether `sub` occurs in `text` starting exactly at position `i`. -/
def matchAt (text sub : List Char) (i : Nat) : Bool :=
  (text.drop i).take sub.length == sub

/-- Forward scan over `count` candidate positions starting at `i`,
returning the first position where `sub` matches, else -1.
This is the search loop inside CPython's `str.find`. -/
def scanFwd (text sub : List Char) : Nat → Nat → Int
  | 0, _ => -1
  | count + 1, i => if matchAt text sub i then (i : Int) else scanFwd text sub count (i + 1)

/-- Backward scan over `count` candidate positions starting at `i` and
moving down, returning the first (i.e. highest) position where `sub`
matches, else -1. This is the search loop inside CPython's `str.rfind`. -/
def scanBwd (text sub : List Char) : Nat → Nat → Int
  | 0, _ => -1
  | count + 1, i => if matchAt text sub i then (i : Int) else scanBwd text sub count (i - 1)

/-- Python `text.find(sub, start, end)` (`none` bounds are the defaults). -/
def pyFind (text sub : List Char) (start? end? : Option Int) : Int :=
  let n := text.length
  let s := pyAdjStart n (start?.getD 0)
  let e := pyAdjEnd n (end?.getD n)
  if e - s < (sub.length : Int) then -1
  else scanFwd text sub ((e - (sub.length : Int)).toNat + 1 - s.toNat) s.toNat

/-- Python `text.rfind(sub, start, end)` (`none` bounds are the defaults). -/
def pyRfind (text sub : List Char) (start? end? : Option Int) : Int :=
  let n := text.length
  let s := pyAdjStart n (start?.getD 0)
  let e := pyAdjEnd n (end?.getD n)
  if e - s < (sub.length : Int) then -1
  else scanBwd text sub ((e - (sub.length : Int)).toNat + 1 - s.toNat) (e - (sub.length : Int)).toNat

/-- Python `text.startswith(p, start)`. -/
def pyStartswith (text p : List Char) (start : Int) : Bool :=
  let n := text.length
  let s := pyAdjStart n start
  if (n : Int) < s + p.length then false else matchAt text p s.toNat

/-- Python slicing `text[a:b]`: both bounds wrap when negative and clamp
into `[0, len]`. -/
def pySlice (text : List Char) (a b : Int) : List Char :=
  (text.take (pyAdjEnd text.length b).toNat).drop (pyAdjEnd text.length a).toNat

/-! ### The mapper's data model -/

/-- Value stored in a Result's extras dict (the mapper stores offsets and
the occasional string such as a Div's identifier). -/
inductive ExtraVal where
  | int (n : Int)
  | str (s : String)
deriving DecidableEq, Repr

/-- Extras dict of a Result, as an association list with unique keys. -/
abbrev Extras := List (String × ExtraVal)

/-- Python `extras.get(k)`. -/
def extrasGet (x : Extras) (k : String) : Option ExtraVal :=
  (x.find? fun kv => kv.1 == k).map fun kv => kv.2

/-- Python `extras.update({k: v})` (insert or overwrite one key). -/
def extrasUpdate (x : Extras) (k : String) (v : ExtraVal) : Extras :=
  (x.filter fun kv => !(kv.1 == k)) ++ [(k, v)]

/-- The Result dataclass: a mapped node's tag, half-open span and extras.
The Python field named `end` is called `end_` here (Lean keyword). -/
structure Result where
  type : String
  start : Int
  end_ : Int
  extras : Extras
deriving DecidableEq, Repr

/-- Mutable state of a PandocSourceMapper instance during a walk: the
shared results list plus the number of warnings emitted so far
(`warnings.warn` calls are modelled by counting them). -/
structure WState where
  results : List Result
  warnings : Nat
deriving DecidableEq, Repr

/-- Types where leading and trailing spaces are not expected (source list
`non_spaced_types`): all inlines except Space, SoftBreak and LineBreak. -/
def nonSpacedTypes : List String :=
  ["Str", "Emph", "Strong", "Strikeout", "Superscript", "Subscript",
   "SmallCaps", "Quoted", "Cite", "Code", "Math", "RawInline", "Link",
   "Image", "Note", "Span"]

/-- Types that span whole lines (source list `paragraph_types`):
all blocks except Plain, RawBlock and Null. -/
def paragraphTypes : List String :=
  ["Para", "LineBlock", "CodeBlock", "BlockQuote",
   "OrderedList", "BulletList", "DefinitionList", "Header",
   "HorizontalRule", "Table", "Div"]

/-! ### The escape table -/

/-- Table of escape-sequence and entity keys to decoded characters, in the
source dict's insertion order (pandoc_source_mapper.py lines 72-146). -/
def escapeTable : List (List Char × Char) := [
  (['\x5c', '\x5c'], '\x5c'),  -- \\ -> \
  (['\x5c', '\x60'], '\x60'),  -- backslash-backtick -> backtick
  (['\x5c', '\x2a'], '\x2a'),  -- \* -> *
  (['\x5c', '\x5f'], '\x5f'),  -- \_ -> _
  (['\x5c', '\x7b'], '\x7b'),  -- backslash-open-brace
  (['\x5c', '\x7d'], '\x7d'),  -- backslash-close-brace
  (['\x5c', '\x5b'], '\x5b'),  -- \[ -> [
  (['\x5c', '\x5d'], '\x5d'),  -- \] -> ]
  (['\x5c', '\x28'], '\x28'),  -- \( -> (
  (['\x5c', '\x29'], '\x29'),  -- \) -> )
  (['\x5c', '\x23'], '\x23'),  -- \# -> #
  (['\x5c', '\x2b'], '\x2b'),  -- \+ -> +
  (['\x5c', '\x2d'], '\x2d'),  -- \- -> -
  (['\x5c', '\x2e'], '\x2e'),  -- \. -> .
  (['\x5c', '\x21'], '\x21'),  -- \! -> !
  (['\x5c', '\x7e'], '\x7e'),  -- \~ -> ~
  (['\x5c', '\x22'], '\x22'),  -- \" -> "
  (['\x5c', '\x3c'], '\x3c'),  -- \< -> <
  (['\x5c', '\x3e'], '\x3e'),  -- \> -> >
  (['\x5c', '\x0a'], '\x0a'),  -- backslash-newline -> newline
  (['\x20'], '\xa0'),  -- space -> U+00A0
  (['\x26', '\x61', '\x6d', '\x70', '\x3b'], '\x26'),  -- &amp; -> &
  (['\x26', '\x6c', '\x74', '\x3b'], '\x3c'),  -- &lt; -> <
  (['\x26', '\x67', '\x74', '\x3b'], '\x3e'),  -- &gt; -> >
  (['\x26', '\x6e', '\x62', '\x73', '\x70', '\x3b'], '\x20'),  -- &nbsp; -> space
  (['\x26', '\x69', '\x65', '\x78', '\x63', '\x6c', '\x3b'], '\xa1'),  -- &iexcl;
  (['\x26', '\x63', '\x65', '\x6e', '\x74', '\x3b'], '\xa2'),  -- &cent;
  (['\x26', '\x70', '\x6f', '\x75', '\x6e', '\x64', '\x3b'], '\xa3'),  -- &pound;
  (['\x26', '\x63', '\x75', '\x72', '\x72', '\x65', '\x6e', '\x3b'], '\xa4'),  -- &curren;
  (['\x26', '\x79', '\x65', '\x6e', '\x3b'], '\xa5'),  -- &yen;
  (['\x26', '\x62', '\x72', '\x76', '\x62', '\x61', '\x72', '\x3b'], '\xa6'),  -- &brvbar;
  (['\x26', '\x73', '\x65', '\x63', '\x74', '\x3b'], '\xa7'),  -- &sect;
  (['\x26', '\x75', '\x6d', '\x6c', '\x3b'], '\xa8'),  -- &uml;
  (['\x26', '\x63', '\x6f', '\x70', '\x79', '\x3b'], '\xa9'),  -- &copy;
  (['\x26', '\x6f', '\x72', '\x64', '\x66', '\x3b'], '\xaa'),  -- &ordf;
  (['\x26', '\x6c', '\x61', '\x71', '\x75', '\x6f', '\x3b'], '\xab'),  -- &laquo;
  (['\x26', '\x6e', '\x6f', '\x74', '\x3b'], '\xac'),  -- &not;
  (['\x26', '\x73', '\x68', '\x79', '\x3b'], '\xad'),  -- &shy;
  (['\x26', '\x72', '\x65', '\x67', '\x3b'], '\xae'),  -- &reg;
  (['\x26', '\x6d', '\x61', '\x63', '\x72', '\x3b'], '\xaf'),  -- &macr;
  (['\x26', '\x64', '\x65', '\x67', '\x3b'], '\xb0'),  -- &deg;
  (['\x26', '\x70', '\x6c', '\x75', '\x73', '\x6d', '\x6e', '\x3b'], '\xb1'),  -- &plusmn;
  (['\x26', '\x73', '\x75', '\x70', '\x32', '\x3b'], '\xb2'),  -- &sup2;
  (['\x26', '\x73', '\x75', '\x70', '\x33', '\x3b'], '\xb3'),  -- &sup3;
  (['\x26', '\x61', '\x63', '\x75', '\x74', '\x65', '\x3b'], '\xb4'),  -- &acute;
  (['\x26', '\x6d', '\x69', '\x63', '\x72', '\x6f', '\x3b'], '\xb5'),  -- &micro;
  (['\x26', '\x70', '\x61', '\x72', '\x61', '\x3b'], '\xb6'),  -- &para;
  (['\x26', '\x6d', '\x69', '\x64', '\x64', '\x6f', '\x74', '\x3b'], '\xb7'),  -- &middot;
  (['\x26', '\x63', '\x65', '\x64', '\x69', '\x6c', '\x3b'], '\xb8'),  -- &cedil;
  (['\x26', '\x73', '\x75', '\x70', '\x31', '\x3b'], '\xb9'),  -- &sup1;
  (['\x26', '\x6f', '\x72', '\x64', '\x6d', '\x3b'], '\xba'),  -- &ordm;
  (['\x26', '\x72', '\x61', '\x71', '\x75', '\x6f', '\x3b'], '\xbb'),  -- &raquo;
  (['\x26', '\x66', '\x72', '\x61', '\x63', '\x31', '\x34', '\x3b'], '\xbc'),  -- &frac14;
  (['\x26', '\x66', '\x72', '\x61', '\x63', '\x31', '\x32', '\x3b'], '\xbd'),  -- &frac12;
  (['\x26', '\x66', '\x72', '\x61', '\x63', '\x33', '\x34', '\x3b'], '\xbe'),  -- &frac34;
  (['\x26', '\x69', '\x71', '\x75', '\x65', '\x73', '\x74', '\x3b'], '\xbf'),  -- &iquest;
  (['\x26', '\x74', '\x69', '\x6d', '\x65', '\x73', '\x3b'], '\xd7'),  -- &times;
  (['\x26', '\x64', '\x69', '\x76', '\x69', '\x64', '\x65', '\x3b'], '\xf7'),  -- &divide;
  (['\x26', '\x45', '\x54', '\x48', '\x3b'], '\xd0'),  -- &ETH;
  (['\x26', '\x65', '\x74', '\x68', '\x3b'], '\xf0'),  -- &eth;
  (['\x26', '\x54', '\x48', '\x4f', '\x52', '\x4e', '\x3b'], '\xde'),  -- &THORN;
  (['\x26', '\x74', '\x68', '\x6f', '\x72', '\x6e', '\x3b'], '\xfe'),  -- &thorn;
  (['\x26', '\x41', '\x45', '\x6c', '\x69', '\x67', '\x3b'], '\xc6'),  -- &AElig;
  (['\x26', '\x61', '\x65', '\x6c', '\x69', '\x67', '\x3b'], '\xe6'),  -- &aelig;
  (['\x26', '\x4f', '\x45', '\x6c', '\x69', '\x67', '\x3b'], 'Œ'),  -- &OElig;
  (['\x26', '\x6f', '\x65', '\x6c', '\x69', '\x67', '\x3b'], 'œ'),  -- &oelig;
  (['\x26', '\x41', '\x72', '\x69', '\x6e', '\x67', '\x3b'], '\xc5'),  -- &Aring;
  (['\x26', '\x4f', '\x73', '\x6c', '\x61', '\x73', '\x68', '\x3b'], '\xd8'),  -- &Oslash;
  (['\x26', '\x43', '\x63', '\x65', '\x64', '\x69', '\x6c', '\x3b'], '\xc7'),  -- &Ccedil;
  (['\x26', '\x63', '\x63', '\x65', '\x64', '\x69', '\x6c', '\x3b'], '\xe7'),  -- &ccedil;
  (['\x26', '\x73', '\x7a', '\x6c', '\x69', '\x67', '\x3b'], '\xdf'),  -- &szlig;
  (['\x26', '\x4e', '\x74', '\x69', '\x6c', '\x64', '\x65', '\x3b'], '\xd1'),  -- &Ntilde;
  (['\x26', '\x6e', '\x74', '\x69', '\x6c', '\x64', '\x65', '\x3b'], '\xf1')  -- &ntilde;
]

/-- The decoded characters of the table (source `escape_table_values`). -/
def escapeTableValues : List Char := escapeTable.map fun kv => kv.2

/-! ### Text locator -/

/-- Private helper `__find`: plain `str.find` returning a span. -/
def findPlain (text sub : List Char) (start? end? : Option Int) : Int × Int :=
  let s := pyFind text sub start? end?
  if 0 ≤ s then (s, s + sub.length) else (s, s)

/-- First escape-table key that is a prefix of `text[i:]` (the inner
`for c in self.escape_table` loop with `break`), if any. -/
def matchKeyAt (text : List Char) (i : Nat) : Option (List Char) :=
  (escapeTable.find? fun kv => kv.1.isPrefixOf (text.drop i)).map fun kv => kv.1

/-- Scanning loop of `__find_unescaped` (source lines 522-551).
State: source position `i`, target position `index`, tentative match
start `sm` (`none` models the -1 sentinel). Returns the matched span,
or `none` when the target is exhausted without a full match.
All these values are provably non-negative in Python, so Nat is used. -/
def fuLoop (text sub : List Char) (endN : Nat) (i index : Nat) (sm : Option Nat) :
    Option (Nat × Nat) :=
  if h : i < endN then
    let inc : Int :=
      if text.getD i ' ' = sub.getD index ' ' then 1
      else if sm.isSome && (text.getD i ' ' == '\r') then 0
      else
        match (if sub.getD index ' ' ∈ escapeTableValues then matchKeyAt text i else none) with
        | some k => (k.length : Int)
        | none => -1
    if 0 < inc then
      -- here the source's step `i += max(1, increment)` equals `i + increment`
      let sm' := sm.getD i
      if index + 1 = sub.length then some (sm', i + inc.toNat)
      else fuLoop text sub endN (i + inc.toNat) (index + 1) (some sm')
    else if inc < 0 && sm.isSome then
      -- backtrack: `index = 0; i = start_match; start_match = -1; i += 1`
      fuLoop text sub endN (sm.getD 0 + 1) 0 none
    else
      -- mismatch without a tentative match, or a skipped carriage return
      fuLoop text sub endN (i + 1) index sm
  else none
termination_by (endN - sm.getD i, endN - i)
decreasing_by
  · exact Prod.Lex.right _ (by omega)
  · rcases sm with _ | s
    · simp at *
    · simp only [Option.getD_some, Option.getD_none]
      rcases Nat.lt_or_ge s endN with hs | hs
      · exact Prod.Lex.left _ _ (by omega)
      · rw [show endN - (s + 1) = endN - s from by omega]
        exact Prod.Lex.right _ (by omega)
  · rcases sm with _ | s
    · simp only [Option.getD_none]
      exact Prod.Lex.left _ _ (by omega)
    · simp only [Option.getD_some]
      exact Prod.Lex.right _ (by omega)

/-- Private helper `__find_unescaped` (source lines 507-551): find `sub`
in `text` between `start?` and `end?`, matching escaped characters to
their unescaped equivalents and skipping carriage returns mid-match. -/
def findUnescaped (text sub : List Char) (start? end? : Option Int) : Int × Int :=
  let start := start?.getD 0
  let e := end?.getD (text.length : Int)
  if start > e ∨ start < 0 ∨ e > (text.length : Int) then (-1, -1)
  else if sub.isEmpty then (start, start)
  else
    match fuLoop text sub e.toNat start.toNat 0 none with
    | some (a, b) => ((a : Int), (b : Int))
    | none => (-1, -1)

/-! ### Line utilities -/

/-- Private helper `__get_line`: the line containing `index`, computed as
`rfind`-newline before and `find`-newline after (source lines 564-569). -/
def getLine (text : List Char) (index : Int) : Int × Int :=
  let startLine := pyRfind text ['\n'] (some 0) (some index) + 1
  let endLine := pyFind text ['\n'] (some startLine) none
  (startLine, if endLine < 0 then (text.length : Int) else endLine)

/-- Private helper `__get_line_before` (source lines 571-573). -/
def getLineBefore (text : List Char) (index : Int) : Int × Int :=
  getLine text (max ((getLine text index).1 - 1) 0)

/-- Private helper `__get_line_after` (source lines 575-577). -/
def getLineAfter (text : List Char) (index : Int) : Int × Int :=
  getLine text (min ((getLine text index).2 + 1) ((text.length : Int) - 1))

/-! ### Whitespace loops -/

/-- Loop `while not self.text[i].isspace(): i += 1` (walk_spaces line 438).
Runs the in-bounds accesses structurally; `none` models the IndexError
raised when the position leaves the valid index range. -/
def skipNotSpaceGo (text : List Char) : Nat → Int → Option Int
  | 0, _ => none
  | count + 1, i =>
    match pyGet text i with
    | none => none
    | some c => if pyIsspace c then some i else skipNotSpaceGo text count (i + 1)

/-- Entry point for the skip-to-whitespace loop: the count is the exact
number of steps after which the upward-moving index must go out of range. -/
def skipWhileNotSpace (text : List Char) (i : Int) : Option Int :=
  skipNotSpaceGo text (((text.length : Int) - i).toNat + 1) i

/-- Loop `while self.text[i].isspace(): i += 1` (walk_spaces line 441 and
the start-trim of walk_one line 280). -/
def skipSpaceGo (text : List Char) : Nat → Int → Option Int
  | 0, _ => none
  | count + 1, i =>
    match pyGet text i with
    | none => none
    | some c => if pyIsspace c then skipSpaceGo text count (i + 1) else some i

/-- Entry point for the skip-whitespace loop. -/
def skipWhileSpace (text : List Char) (i : Int) : Option Int :=
  skipSpaceGo text (((text.length : Int) - i).toNat + 1) i

/-- Loop `while self.text[e - 1].isspace(): e -= 1` (end-trim of walk_one
line 282); the index moves down and wraps once when negative. -/
def retreatSpaceGo (text : List Char) : Nat → Int → Option Int
  | 0, _ => none
  | count + 1, e =>
    match pyGet text (e - 1) with
    | none => none
    | some c => if pyIsspace c then retreatSpaceGo text count (e - 1) else some e

/-- Entry point for the end-trim loop: the count is the exact number of
steps after which the downward-moving index must go out of range. -/
def retreatWhileSpace (text : List Char) (e : Int) : Option Int :=
  retreatSpaceGo text ((e + (text.length : Int)).toNat + 1) e

/-! ### Per-node walkers (the pure parts) -/

/-- Inline walker `walk_str` (source lines 387-393). -/
def walkStr (text : List Char) (index : Int) (s : List Char) : Int × Int × Extras :=
  if pyStartswith text s index then (index, index + s.length, [])
  else
    let (a, b) := findUnescaped text s (some index) none
    (a, b, [])

/-- Inline walker `walk_spaces` (source lines 436-443): skip forward to
the first whitespace character, then consume the run of whitespace.
Neither loop checks bounds, so the walker can raise IndexError (`none`). -/
def walkSpaces (text : List Char) (index : Int) : Option (Int × Int × Extras) :=
  match skipWhileNotSpace text index with
  | none => none
  | some s =>
    match skipWhileSpace text s with
    | none => none
    | some e => some (s, e, [])

/-- Pure tail of `walk_link` (source lines 454-474), after the content has
been walked to the bounds `cs`/`ce`: locate url and title, combine the end,
and build the returned extras. The source first builds an extras dict
holding url/title bounds (lines 468-473) and then returns a fresh dict
holding only the content bounds (line 474); only the returned value is
modelled, since the richer dict is dead. -/
def linkBounds (text : List Char) (index cs ce : Int) (url title : List Char) :
    Int × Int × Extras :=
  let (us, ue) := if url.isEmpty then (ce, ce) else findPlain text url (some ce) none
  let (_, te) := if title.isEmpty then (ce, ce) else findPlain text title (some ce) none
  let e1 := max ue te
  let e2 :=
    if (getLine text ce).1 ≠ (getLine text e1).1 then ce
    else if us ≠ ue then e1 + 1
    else e1
  (index, e2, [("content_start", ExtraVal.int cs), ("content_end", ExtraVal.int ce)])

/-! ### Generic per-node post-processing and traversal -/

/-- Post-processing applied by `walk_one` to a type-specific walker's raw
span (source lines 273-292): the validity check, whitespace trimming for
non-spaced types, and line widening for paragraph types.
Result: `some (some r)` = the Result that gets appended, `some none` =
invalid span discarded with a warning, `none` = the trimming loops raise
IndexError. -/
def finishResult (text : List Char) (t : String) (s e : Int) (x : Extras) :
    Option (Option Result) :=
  if s < 0 ∨ e < 0 ∨ e ≤ s then some none
  else
    let trimmed : Option (Int × Int) :=
      if t ∈ nonSpacedTypes then
        match skipWhileSpace text s with
        | none => none
        | some s1 =>
          match retreatWhileSpace text e with
          | none => none
          | some e1 => some (s1, e1)
      else some (s, e)
    match trimmed with
    | none => none
    | some (s1, e1) =>
      if t ∈ paragraphTypes then
        some (some ⟨t, (getLine text s1).1, (getLine text e1).2,
          extrasUpdate (extrasUpdate x "s" (ExtraVal.int s1)) "e" (ExtraVal.int e1)⟩)
      else some (some ⟨t, s1, e1, x⟩)

/-- Post-processing plus the state effect of `walk_one`: a valid result is
appended to `self.results`; an invalid one is dropped with a warning. -/
def finishOne (text : List Char) (st : WState) (t : String) (s e : Int) (x : Extras) :
    Option (Option Result × WState) :=
  match finishResult text t s e x with
  | none => none
  | some none => some (none, ⟨st.results, st.warnings + 1⟩)
  | some (some r) => some (some r, ⟨st.results ++ [r], st.warnings⟩)

/-- Private helper `__is_last_result_ordered` (source lines 553-562) over
the accumulation list local to one `walk_multiple` call. The source indexes
`results[-1]`; call sites always pass a nonempty list, so the empty case
here is unreachable. -/
def isLastResultOrdered (text : List Char) (results : List Result) : Bool :=
  match results.getLast? with
  | none => true
  | some result =>
    !((decide (result.type = "Div") &&
        decide (extrasGet result.extras "identifier" = some (ExtraVal.str "refs"))) ||
      (decide (result.type = "Note") &&
        decide (extrasGet result.extras "type" = some (ExtraVal.str "footnote"))) ||
      (results.dropLast.any fun prev =>
        decide (prev.type = "SoftBreak") && !(pySlice text prev.start prev.end_).contains '\n'))

/-- Pandoc AST nodes, restricted to the node shapes the claims are about.
The `unknown` constructor stands for any entry whose tag is not in the
dispatch table `self.types`. -/
inductive Node where
  | str (s : List Char)
  | space
  | softBreak
  | lineBreak
  | link (entries : List Node) (url : List Char) (title : List Char)
  | image (entries : List Node) (url : List Char) (title : List Char)
  | unknown (tag : String)

mutual

/-- Dispatcher `walk_one` (source lines 265-292): walk one node at cursor
`index`, post-process the raw span, and append the Result on success.
`none` = an exception propagates; `some (none, st)` = the node yields no
Result (unknown tag, or invalid span) and the traversal continues.
For Link/Image, `walk_multiple(start, entries)` is called with the default
padding 0, under which it returns the aux loop's bounds unchanged with
empty extras, so the loop `walkGo` is called directly. -/
def walkOne (text : List Char) (st : WState) (index : Int) : Node → Option (Option Result × WState)
  | Node.str s =>
    let (a, b, x) := walkStr text index s
    finishOne text st "Str" a b x
  | Node.space =>
    match walkSpaces text index with
    | none => none
    | some (a, b, x) => finishOne text st "Space" a b x
  | Node.softBreak =>
    match walkSpaces text index with
    | none => none
    | some (a, b, x) => finishOne text st "SoftBreak" a b x
  | Node.lineBreak =>
    match walkSpaces text index with
    | none => none
    | some (a, b, x) => finishOne text st "LineBreak" a b x
  | Node.link entries url title =>
    match walkGo text st 0 index index [] entries with
    | none => none
    | some ((cs, ce), st1) =>
      let (a, b, x) := linkBounds text index cs ce url title
      finishOne text st1 "Link" a b x
  | Node.image entries url title =>
    match walkGo text st 0 index index [] entries with
    | none => none
    | some ((cs, ce), st1) =>
      let (a, b, x) := linkBounds text index cs ce url title
      finishOne text st1 "Image" a b x
  | Node.unknown _ => some (none, ⟨st.results, st.warnings + 1⟩)

/-- Accumulation loop of `walk_multiple` (source lines 250-261): `i` is the
enumeration counter, `s`/`e` the inherited start/end, `acc` the local
`results` list of this accumulation. -/
def walkGo (text : List Char) (st : WState) (i : Nat) (s e : Int) (acc : List Result) :
    List Node → Option ((Int × Int) × WState)
  | [] => some ((s, e), st)
  | n :: rest =>
    match walkOne text st e n with
    | none => none
    | some (none, st1) => walkGo text st1 (i + 1) s e acc rest
    | some (some r, st1) =>
      let acc1 := acc ++ [r]
      if isLastResultOrdered text acc1 then
        walkGo text st1 (i + 1) (if i = 0 then r.start else s) r.end_ acc1 rest
      else
        walkGo text st1 (i + 1) s e acc1 rest

end

/-- Combinator `walk_multiple` (source lines 247-263). -/
def walkMultiple (text : List Char) (st : WState) (index : Int) (entries : List Node)
    (padding : Int) : Option ((Int × Int × Extras) × WState) :=
  match walkGo text st 0 index index [] entries with
  | none => none
  | some ((s, e), st1) =>
    some ((s - padding, e + padding,
      if padding ≠ 0 then [("content_start", ExtraVal.int s), ("content_end", ExtraVal.int e)]
      else []), st1)

/-! ### Spec-side definitions

These restate parts of the specification in its own words, independently of
the source-shaped definitions above, for the refinement-style claims. -/

/-- Position of the newline closest before position `p` (exclusive), per
the spec's words "just after the previous newline (or 0)". -/
def prevNl (text : List Char) : Nat → Option Nat
  | 0 => none
  | p + 1 => if text[p]? = some '\n' then some p else prevNl text p

/-- Scan for the first newline at or after position `a` over the remaining
`count` in-bounds positions, returning the end of the text if none. -/
def nextNlGo (text : List Char) : Nat → Nat → Nat
  | 0, _ => text.length
  | count + 1, a =>
    if a < text.length then
      if text.getD a ' ' = '\n' then a else nextNlGo text count (a + 1)
    else text.length

/-- Position of the first newline at or after position `a`, or the end of
the text, per the spec's words "to the next newline (or end of text)". -/
def nextNlFrom (text : List Char) (a : Nat) : Nat :=
  nextNlGo text (text.length - a) a

/-- Half-open line span containing position `p`, per the spec's words:
"from just after the previous newline (or 0) to the next newline (or end
of text), exclusive of the newline characters". -/
def lineSpanSpec (text : List Char) (p : Nat) : Nat × Nat :=
  let a := match prevNl text p with | some j => j + 1 | none => 0
  (a, nextNlFrom text a)

/-- Unordered-result predicate as worded by the spec: the last result is
unordered iff it is a Div with the reserved identifier "refs", or a
footnote-type Note, or some earlier result of the same accumulation is a
SoftBreak whose matched text contains no newline. -/
def unorderedLastSpec (text : List Char) (prevs : List Result) (last : Result) : Prop :=
  (last.type = "Div" ∧ extrasGet last.extras "identifier" = some (ExtraVal.str "refs")) ∨
  (last.type = "Note" ∧ extrasGet last.extras "type" = some (ExtraVal.str "footnote")) ∨
  (∃ prev ∈ prevs, prev.type = "SoftBreak" ∧ '\n' ∉ pySlice text prev.start prev.end_)

/-! ### Helper lemmas -/

theorem pyGet_natCast (text : List Char) (j : Nat) : pyGet text (j : Int) = text[j]? := by
  simp [pyGet]

theorem pyGet_some_lt {text : List Char} {i : Int} {c : Char} (h : pyGet text i = some c) :
    i < (text.length : Int) := by
  unfold pyGet at h
  split at h
  · rcases Nat.lt_or_ge i.toNat text.length with hl | hl
    · omega
    · rw [List.getElem?_eq_none hl] at h
      exact absurd h (by simp)
  · split at h
    · omega
    · exact absurd h (by simp)

theorem pyGet_some_ge {text : List Char} {i : Int} {c : Char} (h : pyGet text i = some c) :
    -(text.length : Int) ≤ i := by
  unfold pyGet at h
  split at h
  · omega
  · split at h
    · omega
    · exact absurd h (by simp)

theorem skipSpaceGo_some {text : List Char} :
    ∀ {count : Nat} {s s' : Int}, skipSpaceGo text count s = some s' →
      s ≤ s' ∧ ∃ c, pyGet text s' = some c ∧ ¬pyIsspace c := by
  intro count
  induction count with
  | zero => intro s s' h; exact absurd h (by simp [skipSpaceGo])
  | succ n ih =>
    intro s s' h
    unfold skipSpaceGo at h
    rcases hg : pyGet text s with _ | c <;> rw [hg] at h <;> dsimp only at h
    · exact absurd h (by simp)
    · by_cases hc : pyIsspace c
      · rw [if_pos hc] at h
        obtain ⟨hle, hb⟩ := ih h
        exact ⟨by omega, hb⟩
      · rw [if_neg hc] at h
        obtain rfl : s = s' := by simpa using h
        exact ⟨le_refl s, c, hg, hc⟩

theorem skipWhileSpace_some {text : List Char} {s s' : Int}
    (h : skipWhileSpace text s = some s') :
    s ≤ s' ∧ ∃ c, pyGet text s' = some c ∧ ¬pyIsspace c :=
  skipSpaceGo_some h

theorem skipWhileSpace_idem {text : List Char} {s' : Int}
    (h : ∃ c, pyGet text s' = some c ∧ ¬pyIsspace c) :
    skipWhileSpace text s' = some s' := by
  obtain ⟨c, hg, hc⟩ := h
  unfold skipWhileSpace skipSpaceGo
  rw [hg]
  dsimp only
  rw [if_neg hc]

theorem retreatSpaceGo_some {text : List Char} :
    ∀ {count : Nat} {e e' : Int}, retreatSpaceGo text count e = some e' →
      e' ≤ e ∧ ∃ c, pyGet text (e' - 1) = some c ∧ ¬pyIsspace c := by
  intro count
  induction count with
  | zero => intro e e' h; exact absurd h (by simp [retreatSpaceGo])
  | succ n ih =>
    intro e e' h
    unfold retreatSpaceGo at h
    rcases hg : pyGet text (e - 1) with _ | c <;> rw [hg] at h <;> dsimp only at h
    · exact absurd h (by simp)
    · by_cases hc : pyIsspace c
      · rw [if_pos hc] at h
        obtain ⟨hle, hb⟩ := ih h
        exact ⟨by omega, hb⟩
      · rw [if_neg hc] at h
        obtain rfl : e = e' := by simpa using h
        exact ⟨le_refl e, c, hg, hc⟩

theorem retreatWhileSpace_some {text : List Char} {e e' : Int}
    (h : retreatWhileSpace text e = some e') :
    e' ≤ e ∧ ∃ c, pyGet text (e' - 1) = some c ∧ ¬pyIsspace c :=
  retreatSpaceGo_some h

theorem retreatWhileSpace_idem {text : List Char} {e' : Int}
    (h : ∃ c, pyGet text (e' - 1) = some c ∧ ¬pyIsspace c) :
    retreatWhileSpace text e' = some e' := by
  obtain ⟨c, hg, hc⟩ := h
  unfold retreatWhileSpace retreatSpaceGo
  rw [hg]
  dsimp only
  rw [if_neg hc]

theorem nonSpaced_not_paragraph {t : String} (h : t ∈ nonSpacedTypes) :
    t ∉ paragraphTypes := by
  have hall : nonSpacedTypes.all (fun u => decide (u ∉ paragraphTypes)) = true := by decide
  simpa using List.all_eq_true.mp hall t h

theorem scanBwd_ge_neg_one (text sub : List Char) :
    ∀ (count i : Nat), -1 ≤ scanBwd text sub count i := by
  intro count
  induction count with
  | zero => intro i; simp [scanBwd]
  | succ n ih =>
    intro i
    unfold scanBwd
    split
    · omega
    · exact ih (i - 1)

theorem pyRfind_ge_neg_one (text sub : List Char) (start? end? : Option Int) :
    -1 ≤ pyRfind text sub start? end? := by
  unfold pyRfind
  dsimp only
  split
  · omega
  · exact scanBwd_ge_neg_one text sub _ _

theorem getLine_fst_nonneg (text : List Char) (i : Int) : 0 ≤ (getLine text i).1 := by
  have := pyRfind_ge_neg_one text ['\n'] (some 0) (some i)
  unfold getLine
  dsimp only
  omega

/-! ### Claim C4: edge cases of the escape-aware locator -/

/-- Claim C4 (confirmed): for every text, the escape-aware locator returns
`(start, start)` on an empty target when the range is valid, and `(-1, -1)`
on any invalid range (start > end, a negative bound, or end beyond the text
length) for every target including the empty one. -/
theorem C4_find_unescaped_edge_cases (text : List Char) (s e : Int) (sub : List Char) :
    (0 ≤ s → s ≤ e → e ≤ (text.length : Int) →
      findUnescaped text [] (some s) (some e) = (s, s)) ∧
    ((s > e ∨ s < 0 ∨ e > (text.length : Int)) →
      findUnescaped text sub (some s) (some e) = (-1, -1)) := by
  constructor
  · intro h0 hse hel
    unfold findUnescaped
    simp only [Option.getD_some]
    rw [if_neg (by omega)]
    simp
  · intro hbad
    unfold findUnescaped
    simp only [Option.getD_some]
    rw [if_pos (by omega)]

theorem C4_find_unescaped_edge_cases_witness :
    findUnescaped "ab".toList [] (some 0) (some 1) = (0, 0) ∧
    findUnescaped "ab".toList ['x'] (some 2) (some 1) = (-1, -1) :=
  ⟨(C4_find_unescaped_edge_cases "ab".toList 0 1 ['x']).1 (by decide) (by decide) (by decide),
   (C4_find_unescaped_edge_cases "ab".toList 2 1 ['x']).2 (by omega)⟩

/-! ### Claim C10: walk_spaces is partial -/

theorem skipNotSpaceGo_none_of_nonspace {text : List Char} :
    ∀ (count : Nat) (i : Nat),
      (∀ j : Nat, i ≤ j → j < text.length → ¬pyIsspace (text.getD j ' ')) →
      skipNotSpaceGo text count (i : Int) = none := by
  intro count
  induction count with
  | zero => intro i _; rfl
  | succ n ih =>
    intro i hno
    unfold skipNotSpaceGo
    rw [pyGet_natCast]
    rcases Nat.lt_or_ge i text.length with hl | hl
    · rw [List.getElem?_eq_getElem hl]
      dsimp only
      have hni : ¬pyIsspace text[i] = true := by
        have h0 := hno i (le_refl i) hl
        simpa [List.getD_eq_getElem?_getD, List.getElem?_eq_getElem hl] using h0
      rw [if_neg hni]
      have hcast : ((i : Int) + 1) = ((i + 1 : Nat) : Int) := by push_cast; ring
      rw [hcast]
      exact ih (i + 1) fun j hj hjl => hno j (by omega) hjl
    · rw [List.getElem?_eq_none hl]

theorem skipNotSpaceGo_finds {text : List Char} :
    ∀ (count : Nat) (i j : Nat), i ≤ j → j < text.length →
      pyIsspace (text.getD j ' ') →
      (∀ m : Nat, i ≤ m → m < j → ¬pyIsspace (text.getD m ' ')) →
      j - i < count →
      skipNotSpaceGo text count (i : Int) = some (j : Int) := by
  intro count
  induction count with
  | zero => intro i j _ _ _ _ hc; omega
  | succ n ih =>
    intro i j hij hjl hsp hbefore hc
    unfold skipNotSpaceGo
    rw [pyGet_natCast]
    have hil : i < text.length := by omega
    rw [List.getElem?_eq_getElem hil]
    dsimp only
    rcases Nat.eq_or_lt_of_le hij with rfl | hlt
    · have hip : pyIsspace text[i] = true := by
        simpa [List.getD_eq_getElem?_getD, List.getElem?_eq_getElem hil] using hsp
      rw [if_pos hip]
    · have hni : ¬pyIsspace text[i] = true := by
        have h0 := hbefore i (le_refl i) hlt
        simpa [List.getD_eq_getElem?_getD, List.getElem?_eq_getElem hil] using h0
      rw [if_neg hni]
      have hcast : ((i : Int) + 1) = ((i + 1 : Nat) : Int) := by push_cast; ring
      rw [hcast]
      exact ih (i + 1) j (by omega) hjl hsp (fun m hm hmj => hbefore m (by omega) hmj) (by omega)

theorem skipSpaceGo_none_of_run {text : List Char} :
    ∀ (count : Nat) (i : Nat),
      (∀ m : Nat, i ≤ m → m < text.length → pyIsspace (text.getD m ' ')) →
      skipSpaceGo text count (i : Int) = none := by
  intro count
  induction count with
  | zero => intro i _; rfl
  | succ n ih =>
    intro i hrun
    unfold skipSpaceGo
    rw [pyGet_natCast]
    rcases Nat.lt_or_ge i text.length with hl | hl
    · rw [List.getElem?_eq_getElem hl]
      dsimp only
      have hip : pyIsspace text[i] = true := by
        simpa [List.getD_eq_getElem?_getD, List.getElem?_eq_getElem hl] using
          hrun i (le_refl i) hl
      rw [if_pos hip]
      have hcast : ((i : Int) + 1) = ((i + 1 : Nat) : Int) := by push_cast; ring
      rw [hcast]
      exact ih (i + 1) fun m hm hml => hrun m (by omega) hml
    · rw [List.getElem?_eq_none hl]

/-- Claim C10 (confirmed): walk_spaces scans forward without any bounds
check, so whenever the suffix `text[index:]` contains no whitespace, or the
whitespace run it consumes extends to the very end of the text, it raises
an index-out-of-range error (modelled by `none`) instead of returning a
span. -/
theorem C10_walk_spaces_oob (text : List Char) (idx : Nat)
    (h : (∀ j : Nat, idx ≤ j → j < text.length → ¬pyIsspace (text.getD j ' ')) ∨
         (∃ j : Nat, idx ≤ j ∧ j < text.length ∧ pyIsspace (text.getD j ' ') ∧
           (∀ m : Nat, idx ≤ m → m < j → ¬pyIsspace (text.getD m ' ')) ∧
           (∀ m : Nat, j ≤ m → m < text.length → pyIsspace (text.getD m ' ')))) :
    walkSpaces text (idx : Int) = none := by
  rcases h with hno | ⟨j, hij, hjl, hsp, hbefore, hrun⟩
  · unfold walkSpaces skipWhileNotSpace
    rw [skipNotSpaceGo_none_of_nonspace _ idx hno]
  · unfold walkSpaces skipWhileNotSpace
    rw [skipNotSpaceGo_finds _ idx j hij hjl hsp hbefore (by omega)]
    dsimp only
    unfold skipWhileSpace
    rw [skipSpaceGo_none_of_run _ j hrun]

theorem C10_walk_spaces_oob_witness :
    walkSpaces "ab".toList (0 : Nat) = none :=
  C10_walk_spaces_oob "ab".toList 0 (Or.inl (by decide))

/-! ### Claim C9: trim idempotence for non-spaced kinds -/

/-- Claim C9 (confirmed): every Result of a non-spaced kind that walk_one
appends has non-whitespace boundary characters `text[start]` and
`text[end - 1]` (under Python indexing), so re-applying either
whitespace-trim loop to the recorded span is a no-op. -/
theorem C9_trim_idempotent (text : List Char) (t : String) (s e : Int) (x : Extras)
    (r : Result) (hfin : finishResult text t s e x = some (some r))
    (ht : t ∈ nonSpacedTypes) :
    (∃ c, pyGet text r.start = some c ∧ ¬pyIsspace c) ∧
    (∃ c, pyGet text (r.end_ - 1) = some c ∧ ¬pyIsspace c) ∧
    skipWhileSpace text r.start = some r.start ∧
    retreatWhileSpace text r.end_ = some r.end_ := by
  unfold finishResult at hfin
  split at hfin
  · exact absurd hfin (by simp)
  · rcases hs1 : skipWhileSpace text s with _ | s1 <;> rw [hs1] at hfin <;>
      dsimp only at hfin
    · exact absurd hfin (by simp)
    · rcases he1 : retreatWhileSpace text e with _ | e1 <;> rw [he1] at hfin <;>
        dsimp only at hfin
      · exact absurd hfin (by simp)
      · rw [if_neg (nonSpaced_not_paragraph ht)] at hfin
        obtain rfl : (⟨t, s1, e1, x⟩ : Result) = r := by simpa using hfin
        obtain ⟨-, hbs⟩ := skipWhileSpace_some hs1
        obtain ⟨-, hbe⟩ := retreatWhileSpace_some he1
        exact ⟨hbs, hbe, skipWhileSpace_idem hbs, retreatWhileSpace_idem hbe⟩

theorem C9_trim_idempotent_witness :
    (∃ c, pyGet " ab ".toList 1 = some c ∧ ¬pyIsspace c) ∧
    (∃ c, pyGet " ab ".toList (3 - 1) = some c ∧ ¬pyIsspace c) ∧
    skipWhileSpace " ab ".toList 1 = some 1 ∧
    retreatWhileSpace " ab ".toList 3 = some 3 :=
  C9_trim_idempotent " ab ".toList "Str" 0 4 [] ⟨"Str", 1, 3, []⟩ (by decide) (by decide)

/-! ### Claim C1: the span invariant on appended results -/

/-- Validity check of walk_one: a Result reaches the append only if the
raw walker span satisfied `0 ≤ start`, `0 ≤ end`, `start < end` at the
check (line 274), and the appended Result keeps `0 ≤ start`. -/
theorem finishResult_check (text : List Char) (t : String) (s e : Int)
    (x : Extras) (r : Result) (hfin : finishResult text t s e x = some (some r)) :
    (0 ≤ s ∧ 0 ≤ e ∧ s < e) ∧ 0 ≤ r.start := by
  unfold finishResult at hfin
  split at hfin
  case isTrue => exact absurd hfin (by simp)
  case isFalse hval =>
  have hraw : 0 ≤ s ∧ 0 ≤ e ∧ s < e := by omega
  refine ⟨hraw, ?_⟩
  by_cases hns : t ∈ nonSpacedTypes
  · rw [if_pos hns] at hfin
    rcases hs1 : skipWhileSpace text s with _ | s1 <;> rw [hs1] at hfin <;>
      dsimp only at hfin
    · exact absurd hfin (by simp)
    · rcases he1 : retreatWhileSpace text e with _ | e1 <;> rw [he1] at hfin <;>
        dsimp only at hfin
      · exact absurd hfin (by simp)
      · have hs1ge : 0 ≤ s1 := le_trans hraw.1 (skipWhileSpace_some hs1).1
        by_cases hp : t ∈ paragraphTypes
        · rw [if_pos hp] at hfin
          obtain rfl : _ = r := by simpa using hfin
          exact getLine_fst_nonneg text s1
        · rw [if_neg hp] at hfin
          obtain rfl : (⟨t, s1, e1, x⟩ : Result) = r := by simpa using hfin
          exact hs1ge
  · rw [if_neg hns] at hfin
    dsimp only at hfin
    by_cases hp : t ∈ paragraphTypes
    · rw [if_pos hp] at hfin
      obtain rfl : _ = r := by simpa using hfin
      exact getLine_fst_nonneg text s
    · rw [if_neg hp] at hfin
      obtain rfl : (⟨t, s, e, x⟩ : Result) = r := by simpa using hfin
      exact hraw.1

/-- Appended non-spaced Results end within the text: the end-trim loop
stops at a real character position `text[end - 1]`. -/
theorem finishResult_end_nonSpaced (text : List Char) (t : String) (s e : Int)
    (x : Extras) (r : Result) (hfin : finishResult text t s e x = some (some r))
    (ht : t ∈ nonSpacedTypes) : r.end_ ≤ (text.length : Int) := by
  unfold finishResult at hfin
  split at hfin
  · exact absurd hfin (by simp)
  · rcases hs1 : skipWhileSpace text s with _ | s1 <;> rw [hs1] at hfin <;>
      dsimp only at hfin
    · exact absurd hfin (by simp)
    · rcases he1 : retreatWhileSpace text e with _ | e1 <;> rw [he1] at hfin <;>
        dsimp only at hfin
      · exact absurd hfin (by simp)
      · rw [if_neg (nonSpaced_not_paragraph ht)] at hfin
        obtain rfl : (⟨t, s1, e1, x⟩ : Result) = r := by simpa using hfin
        obtain ⟨-, c, hc, -⟩ := retreatWhileSpace_some he1
        have := pyGet_some_lt hc
        show e1 ≤ (text.length : Int)
        omega

/-- For a type that is neither non-spaced nor a paragraph type, the
post-processing appends the raw span unchanged. -/
theorem finishResult_plain (text : List Char) (t : String) (s e : Int)
    (x : Extras) (r : Result) (hfin : finishResult text t s e x = some (some r))
    (hns : t ∉ nonSpacedTypes) (hp : t ∉ paragraphTypes) : r = ⟨t, s, e, x⟩ := by
  unfold finishResult at hfin
  split at hfin
  · exact absurd hfin (by simp)
  · dsimp only at hfin
    simpa using hfin.symm

/-- Shape of the state effect of the append stage: either nothing was
appended, or exactly one Result that passed the full post-processing. -/
theorem finishOne_cases (text : List Char) (st : WState) (t : String) (s e : Int)
    (x : Extras) (res : Option Result) (st' : WState)
    (h : finishOne text st t s e x = some (res, st')) :
    (res = none ∧ st'.results = st.results) ∨
    (∃ r, res = some r ∧ st'.results = st.results ++ [r] ∧
      finishResult text t s e x = some (some r)) := by
  unfold finishOne at h
  rcases hfin : finishResult text t s e x with _ | _ | r <;> rw [hfin] at h <;>
    dsimp only at h
  · exact absurd h (by simp)
  · obtain ⟨rfl, rfl⟩ : res = none ∧ (⟨st.results, st.warnings + 1⟩ : WState) = st' := by
      simpa [eq_comm] using h
    exact Or.inl ⟨rfl, rfl⟩
  · obtain ⟨rfl, rfl⟩ : res = some r ∧ (⟨st.results ++ [r], st.warnings⟩ : WState) = st' := by
      simpa [eq_comm] using h
    exact Or.inr ⟨r, rfl, rfl, rfl⟩

/-- The end of a span returned by walk_spaces is a real character
position, hence within the text. -/
theorem walkSpaces_end_lt (text : List Char) (idx a b : Int) (x : Extras)
    (h : walkSpaces text idx = some (a, b, x)) : b < (text.length : Int) := by
  unfold walkSpaces at h
  rcases h1 : skipWhileNotSpace text idx with _ | s1 <;> rw [h1] at h <;> dsimp only at h
  · exact absurd h (by simp)
  · rcases h2 : skipWhileSpace text s1 with _ | e1 <;> rw [h2] at h <;> dsimp only at h
    · exact absurd h (by simp)
    · obtain ⟨-, rfl, -⟩ : s1 = a ∧ e1 = b ∧ x = [] := by simpa using h
      obtain ⟨-, c, hc, -⟩ := skipWhileSpace_some h2
      exact pyGet_some_lt hc

/-- Induction over the walker, bounded by node size: every walk extends
the shared results list by Results whose start is non-negative and whose
end does not exceed the text length. -/
theorem walk_appends_spanOk : ∀ (N : Nat),
    (∀ (n : Node) (text : List Char) (st : WState) (idx : Int) (res : Option Result)
      (st' : WState), sizeOf n ≤ N → walkOne text st idx n = some (res, st') →
      ∃ new : List Result, st'.results = st.results ++ new ∧
        ∀ r ∈ new, 0 ≤ r.start ∧ r.end_ ≤ (text.length : Int)) ∧
    (∀ (l : List Node) (text : List Char) (st : WState) (i : Nat) (s e : Int)
      (acc : List Result) (se : Int × Int) (st' : WState),
      sizeOf l ≤ N → walkGo text st i s e acc l = some (se, st') →
      ∃ new : List Result, st'.results = st.results ++ new ∧
        ∀ r ∈ new, 0 ≤ r.start ∧ r.end_ ≤ (text.length : Int)) := by
  intro N
  induction N with
  | zero =>
    constructor
    · intro n _ _ _ _ _ hsize
      cases n <;> simp at hsize
    · intro l _ _ _ _ _ _ _ _ hsize
      cases l <;> simp at hsize
  | succ N ih =>
    constructor
    · intro n text st idx res st' hsize h
      cases n with
      | str s_ =>
        rw [walkOne] at h
        rcases hws : walkStr text idx s_ with ⟨a, b, x⟩
        rw [hws] at h
        dsimp only at h
        rcases finishOne_cases _ _ _ _ _ _ _ _ h with ⟨-, hst⟩ | ⟨r0, -, hst, hfin⟩
        · exact ⟨[], by simp [hst], by simp⟩
        · refine ⟨[r0], hst, ?_⟩
          intro r hr
          obtain rfl : r = r0 := by simpa using hr
          exact ⟨(finishResult_check _ _ _ _ _ _ hfin).2,
            finishResult_end_nonSpaced _ _ _ _ _ _ hfin (by decide)⟩
      | space =>
        rw [walkOne] at h
        rcases hws : walkSpaces text idx with _ | ⟨a, b, x⟩ <;> rw [hws] at h <;>
          dsimp only at h
        · exact absurd h (by simp)
        · rcases finishOne_cases _ _ _ _ _ _ _ _ h with ⟨-, hst⟩ | ⟨r0, -, hst, hfin⟩
          · exact ⟨[], by simp [hst], by simp⟩
          · refine ⟨[r0], hst, ?_⟩
            intro r hr
            obtain rfl : r = r0 := by simpa using hr
            obtain rfl := finishResult_plain _ _ _ _ _ _ hfin (by decide) (by decide)
            exact ⟨(finishResult_check _ _ _ _ _ _ hfin).2,
              le_of_lt (walkSpaces_end_lt _ _ _ _ _ hws)⟩
      | softBreak =>
        rw [walkOne] at h
        rcases hws : walkSpaces text idx with _ | ⟨a, b, x⟩ <;> rw [hws] at h <;>
          dsimp only at h
        · exact absurd h (by simp)
        · rcases finishOne_cases _ _ _ _ _ _ _ _ h with ⟨-, hst⟩ | ⟨r0, -, hst, hfin⟩
          · exact ⟨[], by simp [hst], by simp⟩
          · refine ⟨[r0], hst, ?_⟩
            intro r hr
            obtain rfl : r = r0 := by simpa using hr
            obtain rfl := finishResult_plain _ _ _ _ _ _ hfin (by decide) (by decide)
            exact ⟨(finishResult_check _ _ _ _ _ _ hfin).2,
              le_of_lt (walkSpaces_end_lt _ _ _ _ _ hws)⟩
      | lineBreak =>
        rw [walkOne] at h
        rcases hws : walkSpaces text idx with _ | ⟨a, b, x⟩ <;> rw [hws] at h <;>
          dsimp only at h
        · exact absurd h (by simp)
        · rcases finishOne_cases _ _ _ _ _ _ _ _ h with ⟨-, hst⟩ | ⟨r0, -, hst, hfin⟩
          · exact ⟨[], by simp [hst], by simp⟩
          · refine ⟨[r0], hst, ?_⟩
            intro r hr
            obtain rfl : r = r0 := by simpa using hr
            obtain rfl := finishResult_plain _ _ _ _ _ _ hfin (by decide) (by decide)
            exact ⟨(finishResult_check _ _ _ _ _ _ hfin).2,
              le_of_lt (walkSpaces_end_lt _ _ _ _ _ hws)⟩
      | link entries url title =>
        rw [walkOne] at h
        rcases hgo : walkGo text st 0 idx idx [] entries with _ | ⟨se1, st1⟩ <;>
          rw [hgo] at h <;> dsimp only at h
        · exact absurd h (by simp)
        · have hsz : sizeOf entries ≤ N := by
            simp at hsize
            omega
          rcases se1 with ⟨cs, ce⟩
          obtain ⟨new1, hst1, hnew1⟩ :=
            ih.2 entries text st 0 idx idx [] (cs, ce) st1 hsz hgo
          rcases hlb : linkBounds text idx cs ce url title with ⟨a, b, x⟩
          rw [hlb] at h
          dsimp only at h
          rcases finishOne_cases _ _ _ _ _ _ _ _ h with ⟨-, hst⟩ | ⟨r0, -, hst, hfin⟩
          · exact ⟨new1, by rw [hst, hst1], hnew1⟩
          · refine ⟨new1 ++ [r0], by rw [hst, hst1, List.append_assoc], ?_⟩
            intro r hr
            rcases List.mem_append.mp hr with hin | hin
            · exact hnew1 r hin
            · obtain rfl : r = r0 := by simpa using hin
              exact ⟨(finishResult_check _ _ _ _ _ _ hfin).2,
                finishResult_end_nonSpaced _ _ _ _ _ _ hfin (by decide)⟩
      | image entries url title =>
        rw [walkOne] at h
        rcases hgo : walkGo text st 0 idx idx [] entries with _ | ⟨se1, st1⟩ <;>
          rw [hgo] at h <;> dsimp only at h
        · exact absurd h (by simp)
        · have hsz : sizeOf entries ≤ N := by
            simp at hsize
            omega
          rcases se1 with ⟨cs, ce⟩
          obtain ⟨new1, hst1, hnew1⟩ :=
            ih.2 entries text st 0 idx idx [] (cs, ce) st1 hsz hgo
          rcases hlb : linkBounds text idx cs ce url title with ⟨a, b, x⟩
          rw [hlb] at h
          dsimp only at h
          rcases finishOne_cases _ _ _ _ _ _ _ _ h with ⟨-, hst⟩ | ⟨r0, -, hst, hfin⟩
          · exact ⟨new1, by rw [hst, hst1], hnew1⟩
          · refine ⟨new1 ++ [r0], by rw [hst, hst1, List.append_assoc], ?_⟩
            intro r hr
            rcases List.mem_append.mp hr with hin | hin
            · exact hnew1 r hin
            · obtain rfl : r = r0 := by simpa using hin
              exact ⟨(finishResult_check _ _ _ _ _ _ hfin).2,
                finishResult_end_nonSpaced _ _ _ _ _ _ hfin (by decide)⟩
      | unknown tg =>
        rw [walkOne] at h
        obtain ⟨-, rfl⟩ : res = none ∧ (⟨st.results, st.warnings + 1⟩ : WState) = st' := by
          simpa [eq_comm] using h
        exact ⟨[], by simp, by simp⟩
    · intro l text st i s e acc se st' hsize h
      cases l with
      | nil =>
        rw [walkGo] at h
        obtain ⟨-, rfl⟩ : (s, e) = se ∧ st = st' := by simpa using h
        exact ⟨[], by simp, by simp⟩
      | cons n rest =>
        rw [walkGo] at h
        have hszn : sizeOf n ≤ N := by
          simp at hsize
          omega
        have hszr : sizeOf rest ≤ N := by
          simp at hsize
          omega
        rcases hone : walkOne text st e n with _ | ⟨res1, st1⟩ <;> rw [hone] at h <;>
          dsimp only at h
        · exact absurd h (by simp)
        · obtain ⟨new1, hst1, hnew1⟩ := ih.1 n text st e res1 st1 hszn hone
          rcases res1 with _ | r1 <;> dsimp only at h
          · obtain ⟨new2, hst2, hnew2⟩ := ih.2 rest text st1 (i + 1) s e acc se st' hszr h
            refine ⟨new1 ++ new2, by rw [hst2, hst1, List.append_assoc], ?_⟩
            intro r hr
            rcases List.mem_append.mp hr with hin | hin
            · exact hnew1 r hin
            · exact hnew2 r hin
          · split at h
            · obtain ⟨new2, hst2, hnew2⟩ :=
                ih.2 rest text st1 (i + 1) _ _ _ se st' hszr h
              refine ⟨new1 ++ new2, by rw [hst2, hst1, List.append_assoc], ?_⟩
              intro r hr
              rcases List.mem_append.mp hr with hin | hin
              · exact hnew1 r hin
              · exact hnew2 r hin
            · obtain ⟨new2, hst2, hnew2⟩ :=
                ih.2 rest text st1 (i + 1) _ _ _ se st' hszr h
              refine ⟨new1 ++ new2, by rw [hst2, hst1, List.append_assoc], ?_⟩
              intro r hr
              rcases List.mem_append.mp hr with hin | hin
              · exact hnew1 r hin
              · exact hnew2 r hin

/-- Claim C1 (corrected): every Result appended by walk_one satisfies
`0 ≤ start` and `end ≤ len(text)`, and the raw walker span it came from
passed the validity check `0 ≤ start`, `0 ≤ end`, `start < end`; only
`start < end` can fail on the appended Result itself, because the
whitespace trimming of non-spaced kinds runs after the check (see the
counterexample). -/
theorem C1_walk_one_validity_amended :
    (∀ (text : List Char) (st : WState) (idx : Int) (n : Node) (res : Option Result)
      (st' : WState), walkOne text st idx n = some (res, st') →
      ∃ new : List Result, st'.results = st.results ++ new ∧
        ∀ r ∈ new, 0 ≤ r.start ∧ r.end_ ≤ (text.length : Int)) ∧
    (∀ (text : List Char) (t : String) (s e : Int) (x : Extras) (r : Result),
      finishResult text t s e x = some (some r) → 0 ≤ s ∧ 0 ≤ e ∧ s < e) :=
  ⟨fun text st idx n res st' h =>
    (walk_appends_spanOk (sizeOf n)).1 n text st idx res st' (le_refl _) h,
   fun text t s e x r hfin => (finishResult_check text t s e x r hfin).1⟩

theorem C1_walk_one_validity_amended_witness :
    (∃ new : List Result,
      (⟨[⟨"Str", 1, 0, []⟩], 0⟩ : WState).results = (⟨[], 0⟩ : WState).results ++ new ∧
      ∀ r ∈ new, 0 ≤ r.start ∧ r.end_ ≤ (" a".toList.length : Int)) ∧
    ((0 : Int) ≤ 0 ∧ (0 : Int) ≤ 2 ∧ (0 : Int) < 2) :=
  ⟨(C1_walk_one_validity_amended.1 " a".toList ⟨[], 0⟩ 0 (Node.str [' '])
      (some ⟨"Str", 1, 0, []⟩) ⟨[⟨"Str", 1, 0, []⟩], 0⟩ (by rw [walkOne]; decide)),
   (C1_walk_one_validity_amended.2 "ab".toList "Str" 0 2 [] ⟨"Str", 0, 2, []⟩
      (by decide))⟩

/-- Claim C1 counterexample: on text `" a"`, walking a Str node whose
content is a single space appends the Result `⟨"Str", 1, 0, []⟩`, whose
span violates `start < end`: the raw span (0, 1) passes the validity check
and the whitespace trim then moves `start` past `end`. -/
theorem C1_span_invariant_counterexample :
    walkOne " a".toList ⟨[], 0⟩ 0 (Node.str [' ']) =
      some (some ⟨"Str", 1, 0, []⟩, ⟨[⟨"Str", 1, 0, []⟩], 0⟩) ∧
    ¬((⟨"Str", 1, 0, []⟩ : Result).start < (⟨"Str", 1, 0, []⟩ : Result).end_) := by
  constructor
  · rw [walkOne]
    decide
  · decide

/-! ### Claim C6: unknown tags are skipped -/

/-- Claim C6 (confirmed): a node whose tag is not in the dispatch table
yields no Result: walk_one emits a warning and returns None; in the
walk_multiple loop such a node leaves the inherited start/end, the local
accumulation and the cursor unchanged (only the enumeration counter and
warning count advance) and the traversal continues with the remaining
siblings. -/
theorem C6_unknown_tag_skipped (text : List Char) (st : WState) (index : Int) (tg : String)
    (i : Nat) (s e : Int) (acc : List Result) (rest : List Node) :
    walkOne text st index (Node.unknown tg) = some (none, ⟨st.results, st.warnings + 1⟩) ∧
    walkGo text st i s e acc (Node.unknown tg :: rest) =
      walkGo text ⟨st.results, st.warnings + 1⟩ (i + 1) s e acc rest := by
  constructor
  · rw [walkOne]
  · rw [walkGo, walkOne]

/-! ### Claim C7: the unordered-result predicate -/

/-- Claim C7 (confirmed): the accumulation's last result is classified as
unordered (predicate false) exactly when it is a Div whose recorded
identifier is "refs", or a Note of footnote type, or some earlier result
of the same accumulation is a SoftBreak whose matched span contains no
newline character. -/
theorem C7_unordered_predicate (text : List Char) (results : List Result)
    (h : results ≠ []) :
    isLastResultOrdered text results = false ↔
      unorderedLastSpec text results.dropLast (results.getLast h) := by
  unfold isLastResultOrdered
  rw [List.getLast?_eq_getLast results h]
  unfold unorderedLastSpec
  simp [List.any_eq_true, Bool.or_eq_true, Bool.and_eq_true, decide_eq_true_eq,
        Bool.not_eq_true', List.elem_eq_mem]
  tauto

theorem C7_unordered_predicate_witness :
    isLastResultOrdered "ab".toList [⟨"Div", 0, 1, [("identifier", ExtraVal.str "refs")]⟩] =
        false ↔
      unorderedLastSpec "ab".toList
        ([⟨"Div", 0, 1, [("identifier", ExtraVal.str "refs")]⟩] : List Result).dropLast
        (([⟨"Div", 0, 1, [("identifier", ExtraVal.str "refs")]⟩] : List Result).getLast
          (by simp)) :=
  C7_unordered_predicate "ab".toList
    [⟨"Div", 0, 1, [("identifier", ExtraVal.str "refs")]⟩] (by simp)

/-! ### Claim C5: locator round-trip on verbatim occurrences -/

theorem fuLoop_verbatim (text s : List Char) (i : Nat)
    (hlen : i + s.length ≤ text.length)
    (hocc : ∀ m : Nat, m < s.length → text.getD (i + m) ' ' = s.getD m ' ') :
    ∀ (d k : Nat), d = s.length - k → k < s.length →
      fuLoop text s text.length (i + k) k (if k = 0 then none else some i) =
        some (i, i + s.length) := by
  intro d
  induction d with
  | zero => intro k hd hk; omega
  | succ n ih =>
    intro k hd hk
    rw [fuLoop, dif_pos (show i + k < text.length by omega)]
    dsimp only
    rw [if_pos (hocc k hk)]
    rw [if_pos (show (0 : Int) < 1 by norm_num)]
    have hsm : ((if k = 0 then none else some i).getD (i + k)) = i := by
      by_cases hk0 : k = 0
      · subst hk0; simp
      · rw [if_neg hk0, Option.getD_some]
    rw [hsm]
    by_cases hfin : k + 1 = s.length
    · rw [if_pos hfin]
      have : i + k + (1 : Int).toNat = i + s.length := by
        simp only [Int.toNat_one]
        omega
      rw [this]
    · rw [if_neg hfin]
      have hrec := ih (k + 1) (by omega) (by omega)
      rw [if_neg (by omega : ¬k + 1 = 0)] at hrec
      have harg : i + k + (1 : Int).toNat = i + (k + 1) := by
        simp only [Int.toNat_one]
        omega
      rw [harg]
      exact hrec

/-- Claim C5 (confirmed): whenever a non-empty substring `s` occurs
verbatim at position `i` of the text (`text[i:i+len(s)] == s` with the
occurrence inside the text), the escape-aware search started at `i`
returns exactly `(i, i + len(s))`. -/
theorem C5_find_unescaped_verbatim_roundtrip (text s : List Char) (i : Nat)
    (hne : s ≠ []) (hlen : i + s.length ≤ text.length)
    (hocc : pySlice text (i : Int) ((i : Int) + s.length) = s) :
    findUnescaped text s (some (i : Int)) none = ((i : Int), (i : Int) + s.length) := by
  have hslen : 0 < s.length := List.length_pos.mpr hne
  have hA : (pyAdjEnd text.length (i : Int)).toNat = i := by
    unfold pyAdjEnd
    rw [if_neg (by omega)]
    omega
  have hB : (pyAdjEnd text.length ((i : Int) + s.length)).toNat = i + s.length := by
    unfold pyAdjEnd
    rw [if_neg (by omega)]
    omega
  have hocc' : (text.take (i + s.length)).drop i = s := by
    unfold pySlice at hocc
    rw [hA, hB] at hocc
    exact hocc
  have hpt : ∀ m : Nat, m < s.length → text.getD (i + m) ' ' = s.getD m ' ' := by
    intro m hm
    conv_rhs => rw [← hocc']
    rw [List.getD_eq_getElem?_getD, List.getD_eq_getElem?_getD, List.getElem?_drop,
        List.getElem?_take_of_lt (by omega)]
  unfold findUnescaped
  simp only [Option.getD_some, Option.getD_none]
  rw [if_neg (by omega)]
  rw [if_neg (by simp [hne])]
  have hloop := fuLoop_verbatim text s i hlen hpt (s.length - 0) 0 rfl (by omega)
  rw [if_pos rfl] at hloop
  rw [show ((text.length : Int)).toNat = text.length from by omega,
      show ((i : Int)).toNat = i from by omega]
  simp only [Nat.add_zero] at hloop
  rw [hloop]
  push_cast
  ring_nf

/-! ### Evaluation step lemmas for the scanning loop -/

theorem fuLoop_step_advance (text sub : List Char) (endN i index : Nat)
    (h : i < endN) (hne : ¬text.getD i ' ' = sub.getD index ' ')
    (hesc : (if sub.getD index ' ' ∈ escapeTableValues then matchKeyAt text i else none)
      = none) :
    fuLoop text sub endN i index none = fuLoop text sub endN (i + 1) index none := by
  rw [fuLoop, dif_pos h]
  dsimp only
  rw [if_neg hne]
  rw [if_neg (show ¬((none : Option Nat).isSome && (text.getD i ' ' == '\x0d')) = true
        from by simp)]
  rw [hesc]
  norm_num

theorem fuLoop_step_lit (text sub : List Char) (endN i index : Nat) (sm : Option Nat)
    (h : i < endN) (heq : text.getD i ' ' = sub.getD index ' ')
    (hnf : ¬index + 1 = sub.length) :
    fuLoop text sub endN i index sm =
      fuLoop text sub endN (i + 1) (index + 1) (some (sm.getD i)) := by
  rw [fuLoop, dif_pos h]
  dsimp only
  rw [if_pos heq, if_pos (by norm_num : (0 : Int) < 1), if_neg hnf]
  norm_num

theorem fuLoop_step_last (text sub : List Char) (endN i index : Nat) (sm : Option Nat)
    (h : i < endN) (heq : text.getD i ' ' = sub.getD index ' ')
    (hf : index + 1 = sub.length) :
    fuLoop text sub endN i index sm = some (sm.getD i, i + 1) := by
  rw [fuLoop, dif_pos h]
  dsimp only
  rw [if_pos heq, if_pos (by norm_num : (0 : Int) < 1), if_pos hf]
  norm_num

theorem C5_find_unescaped_verbatim_roundtrip_witness :
    findUnescaped "xab".toList "ab".toList (some ((1 : Nat) : Int)) none =
      (((1 : Nat) : Int), ((1 : Nat) : Int) + "ab".toList.length) :=
  C5_find_unescaped_verbatim_roundtrip "xab".toList "ab".toList 1
    (by decide) (by decide) (by decide)

/-- Evaluation bridge from `findUnescaped` to its loop after the entry
checks, for a valid non-empty search from a non-negative start. -/
theorem findUnescaped_eval (text sub : List Char) (si : Int) (res : Nat × Nat)
    (hne : sub ≠ []) (h0 : 0 ≤ si) (hsi : si ≤ (text.length : Int))
    (hloop : fuLoop text sub text.length si.toNat 0 none = some res) :
    findUnescaped text sub (some si) none = ((res.1 : Int), (res.2 : Int)) := by
  unfold findUnescaped
  simp only [Option.getD_some, Option.getD_none]
  rw [if_neg (by omega), if_neg (by simp [hne])]
  rw [show ((text.length : Int)).toNat = text.length from by omega]
  rw [hloop]

/-! ### Claim C3: the escape-aware match can consume a key whose value is
not the target character -/

/-- Claim C3 (code_bug): the escape branch of `__find_unescaped` only
checks that the target character is SOME value of the escape table and
then consumes the first table key that textually occurs at the source
position, without checking that this key's mapped value equals the target
character. Searching for the target `"&"` (a table value, via `&amp;`) in
the source text `"\*"` succeeds with span (0, 2), consuming the key
`"\*"` whose mapped value is `'*'`, not `'&'` — the claimed per-character
decomposition does not hold for this match. -/
theorem C3_find_unescaped_escape_value_code_bug :
    findUnescaped ['\x5c', '\x2a'] ['\x26'] (some 0) none = (0, 2) ∧
    matchKeyAt ['\x5c', '\x2a'] 0 = some ['\x5c', '\x2a'] ∧
    (escapeTable.find? fun kv => kv.1 == ['\x5c', '\x2a']) =
      some (['\x5c', '\x2a'], '\x2a') ∧
    ¬('\x2a' = '\x26') ∧
    '\x26' ∈ escapeTableValues := by
  refine ⟨?_, by decide, by decide, by decide, by decide⟩
  have h1 : fuLoop ['\x5c', '\x2a'] ['\x26'] 2 0 0 none = some (0, 2) := by
    rw [fuLoop]
    decide
  have h2 := findUnescaped_eval ['\x5c', '\x2a'] ['\x26'] 0 (0, 2)
    (by decide) (by decide) (by decide) h1
  simpa using h2

/-! ### Claim C2: the extras returned by walk_link -/

/-- Claim C2 (code_bug): on the single-line link
`[text](http://example.com "Title")`, walk_link locates the URL at
(7, 25) and the title at (27, 32), and the overall end 33 does extend one
character past the located parts; but the Result appended for the Link
node carries extras with ONLY `content_start`/`content_end`: the richer
extras dict built at source lines 468-473 (with `url_start`/`url_end` and
`title_start`/`title_end`) is discarded because line 474 returns a fresh
dict, contradicting the claim (and the Result docstring). -/
theorem C2_walk_link_extras_code_bug :
    walkOne "[text](http://example.com \"Title\")".toList ⟨[], 0⟩ 0
        (Node.link [Node.str "text".toList] "http://example.com".toList "Title".toList) =
      some (some ⟨"Link", 0, 33,
              [("content_start", ExtraVal.int 1), ("content_end", ExtraVal.int 5)]⟩,
            ⟨[⟨"Str", 1, 5, []⟩,
              ⟨"Link", 0, 33,
               [("content_start", ExtraVal.int 1), ("content_end", ExtraVal.int 5)]⟩],
             0⟩) ∧
    findPlain "[text](http://example.com \"Title\")".toList "http://example.com".toList
        (some 5) none = (7, 25) ∧
    ¬(7 : Int) = 25 ∧
    extrasGet [("content_start", ExtraVal.int 1), ("content_end", ExtraVal.int 5)]
        "url_start" = none ∧
    extrasGet [("content_start", ExtraVal.int 1), ("content_end", ExtraVal.int 5)]
        "title_start" = none := by
  refine ⟨?_, by decide, by decide, by decide, by decide⟩
  have hfu : fuLoop "[text](http://example.com \"Title\")".toList "text".toList 34 0 0 none
      = some (1, 5) := by
    rw [fuLoop_step_advance _ _ _ _ _ (by decide) (by decide) (by decide)]
    rw [fuLoop_step_lit _ _ _ _ _ _ (by decide) (by decide) (by decide)]
    rw [show (Option.getD (none : Option Nat) 1) = 1 from rfl]
    rw [fuLoop_step_lit _ _ _ _ _ _ (by decide) (by decide) (by decide)]
    rw [show (Option.getD (some 1 : Option Nat) 2) = 1 from rfl]
    rw [fuLoop_step_lit _ _ _ _ _ _ (by decide) (by decide) (by decide)]
    rw [show (Option.getD (some 1 : Option Nat) 3) = 1 from rfl]
    rw [fuLoop_step_last _ _ _ _ _ _ (by decide) (by decide) (by decide)]
    rfl
  have hfind : findUnescaped "[text](http://example.com \"Title\")".toList "text".toList
      (some 0) none = (1, 5) := by
    have h2 := findUnescaped_eval "[text](http://example.com \"Title\")".toList
      "text".toList 0 (1, 5) (by decide) (by decide) (by decide) hfu
    simpa using h2
  have hstr : walkOne "[text](http://example.com \"Title\")".toList ⟨[], 0⟩ 0
        (Node.str "text".toList) =
      some (some ⟨"Str", 1, 5, []⟩, ⟨[⟨"Str", 1, 5, []⟩], 0⟩) := by
    rw [walkOne]
    rw [show walkStr "[text](http://example.com \"Title\")".toList 0 "text".toList
          = ((1 : Int), (5 : Int), ([] : Extras)) from by
      unfold walkStr
      rw [if_neg (by decide), hfind]]
    decide
  have hgo : walkGo "[text](http://example.com \"Title\")".toList ⟨[], 0⟩ 0 0 0 []
        [Node.str "text".toList] =
      some ((1, 5), ⟨[⟨"Str", 1, 5, []⟩], 0⟩) := by
    rw [walkGo, hstr]
    dsimp only
    rw [if_pos (by decide)]
    rw [walkGo]
    decide
  rw [walkOne]
  dsimp only
  rw [hgo]
  dsimp only
  decide

/-! ### Claim C8: the line-before and line-after utilities -/

theorem matchAt_single (text : List Char) (c : Char) (j : Nat) :
    matchAt text [c] j = true ↔ text[j]? = some c := by
  unfold matchAt
  rw [show text[j]? = (text.drop j)[0]? from by rw [List.getElem?_drop, Nat.add_zero]]
  rcases text.drop j with _ | ⟨a, l⟩
  · simp
  · simp [List.take]

theorem prevNl_lt {text : List Char} : ∀ {p j : Nat}, prevNl text p = some j → j < p := by
  intro p
  induction p with
  | zero => intro j h; exact absurd h (by simp [prevNl])
  | succ n ih =>
    intro j h
    unfold prevNl at h
    split at h
    · obtain rfl : n = j := by simpa using h
      omega
    · have := ih h
      omega

theorem scanBwd_prevNl (text : List Char) :
    ∀ i : Nat, scanBwd text ['\n'] (i + 1) i =
      (match prevNl text (i + 1) with | some j => (j : Int) | none => -1) := by
  intro i
  induction i with
  | zero =>
    unfold scanBwd prevNl
    by_cases hm : text[0]? = some '\n'
    · rw [if_pos ((matchAt_single text '\n' 0).mpr hm), if_pos hm]
    · rw [if_neg (fun hb => hm ((matchAt_single text '\n' 0).mp hb)), if_neg hm]
      rfl
  | succ n ih =>
    rw [scanBwd]
    rw [show prevNl text (n + 1 + 1) =
          (if text[n + 1]? = some '\n' then some (n + 1) else prevNl text (n + 1))
        from rfl]
    by_cases hm : text[n + 1]? = some '\n'
    · rw [if_pos ((matchAt_single text '\n' (n + 1)).mpr hm), if_pos hm]
    · rw [if_neg (fun hb => hm ((matchAt_single text '\n' (n + 1)).mp hb)), if_neg hm]
      rw [show n + 1 - 1 = n from rfl]
      exact ih

theorem pyRfind_newline (text : List Char) (q : Nat) (hq : q ≤ text.length) :
    pyRfind text ['\n'] (some 0) (some (q : Int)) =
      (match prevNl text q with | some j => (j : Int) | none => -1) := by
  unfold pyRfind pyAdjStart pyAdjEnd
  dsimp only [Option.getD_some]
  rw [if_neg (by omega : ¬(0 : Int) < 0), if_neg (by omega : ¬(q : Int) < 0)]
  rw [min_eq_left (by exact_mod_cast hq)]
  rcases Nat.eq_zero_or_pos q with rfl | hpos
  · rw [if_pos (by simp)]
    rfl
  · rw [if_neg (by simp only [List.length_cons, List.length_nil]; omega)]
    rw [show ((q : Int) - ↑(List.length ['\n'])).toNat = q - 1 from by
          simp only [List.length_cons, List.length_nil]
          omega,
        show ((0 : Int)).toNat = 0 from rfl]
    rw [show q - 1 + 1 - 0 = (q - 1) + 1 from by omega]
    rw [scanBwd_prevNl text (q - 1)]
    rw [show q - 1 + 1 = q from by omega]

theorem scanFwd_nextNl (text : List Char) :
    ∀ (d a : Nat), d = text.length - a →
      scanFwd text ['\n'] d a =
        (if nextNlGo text d a < text.length then ((nextNlGo text d a : Nat) : Int) else -1) := by
  intro d
  induction d with
  | zero =>
    intro a hd
    rw [nextNlGo, scanFwd]
    rw [if_neg (by omega)]
  | succ n ih =>
    intro a hd
    have ha : a < text.length := by
      omega
    rw [scanFwd, nextNlGo, if_pos ha]
    have hbridge : matchAt text ['\n'] a = true ↔ text.getD a ' ' = '\n' := by
      rw [matchAt_single, List.getD_eq_getElem?_getD, List.getElem?_eq_getElem ha]
      simp
    by_cases hm : text.getD a ' ' = '\n'
    · rw [if_pos (hbridge.mpr hm), if_pos hm, if_pos ha]
    · rw [if_neg (fun hb => hm (hbridge.mp hb)), if_neg hm]
      exact ih (a + 1) (by omega)

theorem nextNlGo_le (text : List Char) : ∀ (d a : Nat), nextNlGo text d a ≤ text.length := by
  intro d
  induction d with
  | zero => intro a; exact le_refl _
  | succ n ih =>
    intro a
    rw [nextNlGo]
    split
    · split
      · omega
      · exact ih (a + 1)
    · exact le_refl _

theorem pyFind_newline (text : List Char) (a : Nat) (ha : a ≤ text.length) :
    (if pyFind text ['\n'] (some (a : Int)) none < 0 then (text.length : Int)
     else pyFind text ['\n'] (some (a : Int)) none) = (nextNlFrom text a : Int) := by
  have hmain : pyFind text ['\n'] (some (a : Int)) none =
      (if nextNlFrom text a < text.length then ((nextNlFrom text a : Nat) : Int) else -1) := by
    unfold pyFind pyAdjStart pyAdjEnd
    dsimp only [Option.getD_some, Option.getD_none]
    rw [if_neg (by omega : ¬(a : Int) < 0), if_neg (by omega : ¬(text.length : Int) < 0)]
    rw [min_self]
    rcases Nat.lt_or_ge a text.length with hlt | hge
    · rw [if_neg (by simp only [List.length_cons, List.length_nil]; omega)]
      rw [show ((text.length : Int) - ↑(List.length ['\n'])).toNat + 1 - ((a : Int)).toNat
            = text.length - a from by
          simp only [List.length_cons, List.length_nil]
          omega]
      rw [show nextNlFrom text a = nextNlGo text (text.length - a) a from rfl]
      exact scanFwd_nextNl text (text.length - a) a rfl
    · have ha' : a = text.length := by omega
      subst ha'
      rw [if_pos (by simp)]
      rw [show nextNlFrom text text.length
            = nextNlGo text (text.length - text.length) text.length from rfl]
      rw [show text.length - text.length = 0 from by omega, nextNlGo]
      rw [if_neg (by omega)]
  rw [hmain]
  by_cases hb : nextNlFrom text a < text.length
  · rw [if_pos hb, if_neg (by omega)]
  · rw [if_neg hb, if_pos (by omega)]
    have hle : nextNlFrom text a ≤ text.length := nextNlGo_le text (text.length - a) a
    have heq : nextNlFrom text a = text.length := by omega
    rw [heq]

theorem lineSpanSpec_fst_le (text : List Char) (p : Nat) : (lineSpanSpec text p).1 ≤ p := by
  unfold lineSpanSpec
  dsimp only
  rcases hpn : prevNl text p with _ | j
  · exact Nat.zero_le p
  · have hj := prevNl_lt hpn
    show j + 1 ≤ p
    omega

theorem getLine_spec (text : List Char) (q : Nat) (hq : q ≤ text.length) :
    getLine text (q : Int) =
      (((lineSpanSpec text q).1 : Int), ((lineSpanSpec text q).2 : Int)) := by
  unfold getLine lineSpanSpec
  dsimp only
  rw [pyRfind_newline text q hq]
  rcases hpn : prevNl text q with _ | j
  · dsimp only
    rw [show ((-1 : Int) + 1) = ((0 : Nat) : Int) from by norm_num]
    rw [pyFind_newline text 0 (by omega)]
  · dsimp only
    have hj := prevNl_lt hpn
    rw [show ((j : Int)) + 1 = ((j + 1 : Nat) : Int) from by push_cast; ring]
    rw [pyFind_newline text (j + 1) (by omega)]

/-- Claim C8 (corrected): `line_before(index)` does NOT return the line
containing `index - 1`: it returns the line containing position
`line_start(index) - 1` clamped at 0 — the line immediately preceding the
line containing `index` (or the first line itself when `index` is on the
first line). Likewise `line_after(index)` returns the line containing
`line_end(index) + 1` clamped at `len(text) - 1` — the line immediately
following the line containing `index` — not the line containing
`index + 1`. Line spans are as the spec words them: from just after the
previous newline (or 0) to the next newline (or end of text). -/
theorem C8_line_before_after_amended (text : List Char) (p : Nat) (hp : p ≤ text.length) :
    getLineBefore text (p : Int) =
      (((lineSpanSpec text ((lineSpanSpec text p).1 - 1)).1 : Int),
       ((lineSpanSpec text ((lineSpanSpec text p).1 - 1)).2 : Int)) ∧
    getLineAfter text (p : Int) =
      (((lineSpanSpec text (min ((lineSpanSpec text p).2 + 1) (text.length - 1))).1 : Int),
       ((lineSpanSpec text (min ((lineSpanSpec text p).2 + 1) (text.length - 1))).2 : Int)) := by
  have hspec := getLine_spec text p hp
  have hfle : (lineSpanSpec text p).1 ≤ p := lineSpanSpec_fst_le text p
  constructor
  · unfold getLineBefore
    rw [hspec]
    rw [show max (((lineSpanSpec text p).1 : Int) - 1) 0 =
          (((lineSpanSpec text p).1 - 1 : Nat) : Int) from by omega]
    exact getLine_spec text _ (by omega)
  · unfold getLineAfter
    rw [hspec]
    rcases Nat.eq_zero_or_pos text.length with hz | hpos
    · have htext : text = [] := List.length_eq_zero.mp hz
      subst htext
      have hp0 : p = 0 := by omega
      subst hp0
      decide
    · rw [show min (((lineSpanSpec text p).2 : Int) + 1) ((text.length : Int) - 1) =
            ((min ((lineSpanSpec text p).2 + 1) (text.length - 1) : Nat) : Int) from by
        push_cast [Nat.cast_min]
        omega]
      exact getLine_spec text _ (by omega)

theorem C8_line_before_after_amended_witness :
    getLineBefore "ab\ncd".toList ((4 : Nat) : Int) =
      (((lineSpanSpec "ab\ncd".toList ((lineSpanSpec "ab\ncd".toList 4).1 - 1)).1 : Int),
       ((lineSpanSpec "ab\ncd".toList ((lineSpanSpec "ab\ncd".toList 4).1 - 1)).2 : Int)) ∧
    getLineAfter "ab\ncd".toList ((4 : Nat) : Int) =
      (((lineSpanSpec "ab\ncd".toList
          (min ((lineSpanSpec "ab\ncd".toList 4).2 + 1) ("ab\ncd".toList.length - 1))).1 : Int),
       ((lineSpanSpec "ab\ncd".toList
          (min ((lineSpanSpec "ab\ncd".toList 4).2 + 1) ("ab\ncd".toList.length - 1))).2 : Int)) :=
  C8_line_before_after_amended "ab\ncd".toList 4 (by decide)

/-- Claim C8 counterexample: on text `"ab\ncd"`, `line_before(4)` returns
(0, 2), the first line, while the line span containing position 4 - 1 = 3
is (3, 5); and `line_after(0)` returns (3, 5), the second line, while the
line span containing position 0 + 1 = 1 is (0, 2). So neither function
returns the line containing `index ∓ 1` as claimed. -/
theorem C8_line_before_after_counterexample :
    getLineBefore "ab\ncd".toList 4 = (0, 2) ∧
    lineSpanSpec "ab\ncd".toList (4 - 1) = (3, 5) ∧
    getLineAfter "ab\ncd".toList 0 = (3, 5) ∧
    lineSpanSpec "ab\ncd".toList (0 + 1) = (0, 2) ∧
    ¬((0 : Int), (2 : Int)) = ((3 : Int), (5 : Int)) := by
  decide

end PSM
